import Mathlib

set_option maxHeartbeats 1600000
set_option maxRecDepth 100000

/-!
Verification development for the `@voitanos/heft-plugins` telemetry core
(`packages/telemetry-core`): a shallow embedding of the sanitizer pipeline
(`utils.ts`) and of the `TelemetryClient` state machine
(`TelemetryClient.ts`), together with theorems about the specified
behaviour.

Strings are modelled as `List Char`.  The JavaScript regular expressions in
`SANITIZE_PATTERNS` are fixed and simple enough that each compiles to a
deterministic matcher (the only backtracking point, the second chunk of the
email pattern, is resolved by an explicit greedy descending search for the
dot).  `String.prototype.replace` with a global regex is modelled by a
left-to-right scan over the original character list that emits the
replacement token and resumes after each match.
-/

namespace HeftTelemetry

/-- JS `\w` character class: ASCII letters, ASCII digits, underscore. -/
def isWordChar (c : Char) : Bool := c.isAlpha || c.isDigit || c = '_'

/-- Character class `[\w.-]` used by the email pattern and both path patterns. -/
def isSegChar (c : Char) : Bool := isWordChar c || c = '.' || c = '-'

/-- JS `\s` whitespace class (the ECMAScript WhiteSpace and LineTerminator code points). -/
def isJsSpace (c : Char) : Bool :=
  c = ' ' || c = '\t' || c = '\n' || c = '\r' || c = '\x0b' || c = '\x0c' ||
  c = ' ' || c = ' ' || c = ' ' || c = ' ' || c = ' ' ||
  c = ' ' || c = ' ' || c = ' ' || c = ' ' || c = ' ' ||
  c = ' ' || c = ' ' || c = ' ' || c = ' ' || c = ' ' ||
  c = ' ' || c = ' ' || c = '　' || c = '﻿'

/-- Negation of the JS `\s` class, used by `[^\s]+` in the URL pattern. -/
def isNonSpace (c : Char) : Bool := !(isJsSpace c)

/-- Case-insensitive hex digit, the class `[0-9a-f]` under the `i` flag of the UUID pattern. -/
def isUuidHex (c : Char) : Bool :=
  c.isDigit || ('a' ≤ c && c ≤ 'f') || ('A' ≤ c && c ≤ 'F')

/-- Length of the maximal prefix of the list whose characters satisfy `p`. -/
def runLen (p : Char → Bool) : List Char → Nat
  | [] => 0
  | c :: cs => if p c then runLen p cs + 1 else 0

/-- Does `pat` occur as a prefix of `s`? -/
def startsWithL : List Char → List Char → Bool
  | [], _ => true
  | _ :: _, [] => false
  | a :: as, b :: bs => a = b && startsWithL as bs

/-- Does `pat` occur as a contiguous substring of `s`? Models JS `String.prototype.includes`. -/
def containsSub (pat : List Char) : List Char → Bool
  | [] => startsWithL pat []
  | c :: rest => startsWithL pat (c :: rest) || containsSub pat rest

/-- Number of positions of `s` at which `pat` occurs as a contiguous substring. -/
def countSub (pat : List Char) : List Char → Nat
  | [] => if startsWithL pat [] then 1 else 0
  | c :: rest => (if startsWithL pat (c :: rest) then 1 else 0) + countSub pat rest

/-- Does `pat` occur as a suffix of `s`? -/
def endsWithL (pat s : List Char) : Bool :=
  startsWithL pat (s.drop (s.length - pat.length))

/--
A deterministic matcher for (a piece of) one of the fixed source regexes:
given the remaining input, it returns the number of characters matched from
the front, or `none` if there is no match here.
-/
def RxPiece : Type := List Char → Option Nat

/-- Match a single character satisfying `p`. -/
def charP (p : Char → Bool) : RxPiece := fun s =>
  match s with
  | c :: _ => if p c then some 1 else none
  | [] => none

/-- Match one literal character. -/
def litP (c : Char) : RxPiece := charP (fun d => d = c)

/-- Match a literal character sequence. -/
def litsP (l : List Char) : RxPiece := fun s =>
  if startsWithL l s then some l.length else none

/-- Greedy `p+`: the maximal nonempty run of characters satisfying `p`. -/
def plusP (p : Char → Bool) : RxPiece := fun s =>
  let r := runLen p s
  if r = 0 then none else some r

/-- Greedy `q?`: match `q` if possible, otherwise match the empty string. -/
def optP (q : RxPiece) : RxPiece := fun s => some ((q s).getD 0)

/-- Sequencing of two pieces. -/
def pseq (p q : RxPiece) : RxPiece := fun s =>
  match p s with
  | none => none
  | some n =>
    match q (s.drop n) with
    | none => none
    | some k => some (n + k)

/-- Exactly `n` characters of class `p` (the regex `p{n}` with more of `p` possibly following). -/
def exactNP (p : Char → Bool) (n : Nat) : RxPiece := fun s =>
  if n ≤ runLen p s then some n else none

/-- Fuelled greedy Kleene star over `q`: total number of characters consumed. -/
def manyGo (q : RxPiece) : Nat → List Char → Nat
  | 0, _ => 0
  | fuel + 1, s =>
    match q s with
    | none => 0
    | some n => if n = 0 then 0 else n + manyGo q fuel (s.drop n)

/-- Greedy `q*` as a piece (always succeeds). -/
def manyPr (q : RxPiece) : RxPiece := fun s => some (manyGo q s.length s)

/--
Greedy descending search for the backtracking point of the email pattern
`[\w.-]+@[\w.-]+\.\w+`: after the `@`, find the largest chunk length `k ≥ 1`
such that the character at index `k` is a dot followed by a word character.
-/
def dotSearch (t : List Char) : Nat → Option Nat
  | 0 => none
  | j + 1 =>
    if t.getD (j + 1) ' ' = '.' && isWordChar (t.getD (j + 2) ' ')
    then some (j + 1)
    else dotSearch t j

/-- The part of the email pattern after the `@`: `[\w.-]+\.\w+` with greedy backtracking. -/
def emailTailP : RxPiece := fun t =>
  (dotSearch t (runLen isSegChar t - 1)).map
    (fun k => k + 1 + runLen isWordChar (t.drop (k + 1)))

/-- The URL pattern `https?:\/\/[^\s]+`. -/
def urlP : RxPiece :=
  pseq (litsP ('h' :: 't' :: 't' :: 'p' :: []))
    (pseq (optP (litP 's'))
      (pseq (litsP (':' :: '/' :: '/' :: [])) (plusP isNonSpace)))

/-- The email pattern `[\w.-]+@[\w.-]+\.\w+`. -/
def emailP : RxPiece := pseq (plusP isSegChar) (pseq (litP '@') emailTailP)

/-- One octet group `\d{1,3}` of the IPv4 pattern (the full digit run, capped at 3). -/
def ipGroupP : RxPiece := fun s =>
  let d := runLen Char.isDigit s
  if 1 ≤ d && d ≤ 3 then some d else none

/-- The trailing `\b` of the IPv4 pattern: the next character must not be a word character. -/
def ipEndP : RxPiece := fun s =>
  if isWordChar (s.getD 0 ' ') then none else some 0

/-- The IPv4 pattern body `\d{1,3}\.\d{1,3}\.\d{1,3}\.\d{1,3}\b` (leading `\b` handled by the matcher). -/
def ipQuadP : RxPiece :=
  pseq ipGroupP (pseq (litP '.') (pseq ipGroupP (pseq (litP '.')
    (pseq ipGroupP (pseq (litP '.') (pseq ipGroupP ipEndP))))))

/-- The UUID pattern `[0-9a-f]{8}-[0-9a-f]{4}-[0-9a-f]{4}-[0-9a-f]{4}-[0-9a-f]{12}` (flag `i`). -/
def uuidP : RxPiece :=
  pseq (exactNP isUuidHex 8) (pseq (litP '-') (pseq (exactNP isUuidHex 4) (pseq (litP '-')
    (pseq (exactNP isUuidHex 4) (pseq (litP '-') (pseq (exactNP isUuidHex 4) (pseq (litP '-')
      (exactNP isUuidHex 12))))))))

/-- One segment `\/[\w.-]+` of the POSIX path pattern. -/
def posixSegP : RxPiece := pseq (litP '/') (plusP isSegChar)

/-- The POSIX path pattern `(?:\/[\w.-]+)+\/?`. -/
def posixP : RxPiece := pseq posixSegP (pseq (manyPr posixSegP) (optP (litP '/')))

/-- One segment `[\w.-]+\\` of the Windows path pattern. -/
def winSegP : RxPiece := pseq (plusP isSegChar) (litP '\\')

/-- The Windows path pattern `[A-Za-z]:\\(?:[\w.-]+\\)*`. -/
def winP : RxPiece := pseq (charP Char.isAlpha) (pseq (litP ':') (pseq (litP '\\') (manyPr winSegP)))

/--
A matcher as used by the replacement scan: it additionally receives the
character preceding the current position (`none` at the start of the
string), which the IPv4 pattern needs for its leading word boundary `\b`.
-/
def Matcher : Type := Option Char → List Char → Option Nat

/-- Lift a context-free piece to a matcher. -/
def liftP (q : RxPiece) : Matcher := fun _ s => q s

/-- Leading `\b` before a word character: satisfied at the string start or after a non-word character. -/
def boundaryOk : Option Char → Bool
  | none => true
  | some c => !(isWordChar c)

/-- Matcher for the URL pattern. -/
def urlM : Matcher := liftP urlP

/-- Matcher for the email pattern. -/
def emailM : Matcher := liftP emailP

/-- Matcher for the IPv4 pattern, including its leading word boundary. -/
def ipM : Matcher := fun prev s => if boundaryOk prev then ipQuadP s else none

/-- Matcher for the UUID pattern. -/
def uuidM : Matcher := liftP uuidP

/-- Matcher for the POSIX path pattern. -/
def posixM : Matcher := liftP posixP

/-- Matcher for the Windows path pattern. -/
def winM : Matcher := liftP winP

/--
The scan of `String.prototype.replace` with a global regex: walk the
original string left to right; at each position, if the matcher matches `n`
characters, emit the token and resume after them (remembering the last
matched character as the new preceding character), otherwise emit the
current character.  `fuel` is an upper bound on the number of steps; each
step consumes at least one character, so `s.length` suffices.
-/
def replaceGo (M : Matcher) (tok : List Char) : Nat → Option Char → List Char → List Char
  | 0, _, s => s
  | _ + 1, _, [] => []
  | fuel + 1, prev, c :: rest =>
    match M prev (c :: rest) with
    | some n => tok ++ replaceGo M tok fuel (some ((c :: rest).getD (n - 1) c)) (rest.drop (n - 1))
    | none => c :: replaceGo M tok fuel (some c) rest

/-- One global-replace pass: `s.replace(pattern, token)`. -/
def replacePass (M : Matcher) (tok : List Char) (s : List Char) : List Char :=
  replaceGo M tok s.length none s

/-- The ordered `SANITIZE_PATTERNS` table from `utils.ts`: URLs, emails, IPv4, UUIDs, POSIX paths, Windows paths. -/
def SANITIZE_PATTERNS : List (Matcher × List Char) :=
  (urlM, ('[' :: 'U' :: 'R' :: 'L' :: ']' :: [])) ::
  (emailM, ('[' :: 'E' :: 'M' :: 'A' :: 'I' :: 'L' :: ']' :: [])) ::
  (ipM, ('[' :: 'I' :: 'P' :: ']' :: [])) ::
  (uuidM, ('[' :: 'U' :: 'U' :: 'I' :: 'D' :: ']' :: [])) ::
  (posixM, ('[' :: 'P' :: 'A' :: 'T' :: 'H' :: ']' :: [])) ::
  (winM, ('[' :: 'P' :: 'A' :: 'T' :: 'H' :: ']' :: [])) :: []

/-- The `for`-loop of `sanitizeErrorMessage` before truncation: the six substitution passes in order. -/
def applySanitizePatterns (s : List Char) : List Char :=
  SANITIZE_PATTERNS.foldl (fun acc mp => replacePass mp.1 mp.2 acc) s

/-- `truncateString` from `utils.ts` on character lists (the caller always passes `maxLength` explicitly). -/
def truncateStringL (s : List Char) (maxLength : Nat) : List Char :=
  if s.length ≤ maxLength then s else s.take (maxLength - 3) ++ ('.' :: '.' :: '.' :: [])

/-- `truncateString` from `utils.ts` on strings. -/
def truncateString (s : String) (maxLength : Nat) : String :=
  ⟨truncateStringL s.data maxLength⟩

/-- `sanitizeErrorMessage` from `utils.ts` on character lists: the ordered substitutions, then truncation to 512. -/
def sanitizeErrorMessageL (s : List Char) : List Char :=
  truncateStringL (applySanitizePatterns s) 512

/-- `sanitizeErrorMessage` from `utils.ts` on strings. -/
def sanitizeErrorMessage (s : String) : String :=
  ⟨sanitizeErrorMessageL s.data⟩

/-! ### Opt-out gate, session ids, connection-string helpers (`utils.ts`) -/

/-- The process environment, modelled as a partial map from variable names to values. -/
def EnvMap : Type := String → Option String

/-- The fixed opt-out list `TELEMETRY_OPT_OUT_VARS` from `utils.ts`. -/
def TELEMETRY_OPT_OUT_VARS : List String :=
  ("HEFT_TELEMETRY_DISABLED") :: ("DISABLE_TELEMETRY") :: ("DO_NOT_TRACK") :: ("TELEMETRY_DISABLED") :: []

/--
JS `value.toLowerCase()` restricted to what matters for comparison with
`"true"`: character-wise ASCII lowercasing (no non-ASCII character
lowercases to any character of `"true"`).
-/
def jsToLower (s : String) : String := String.map Char.toLower s

/-- `isTelemetryDisabled` from `utils.ts`: any opt-out variable set to `"1"` or case-insensitive `"true"`. -/
def isTelemetryDisabled (env : EnvMap) : Bool :=
  TELEMETRY_OPT_OUT_VARS.any fun name =>
    match env name with
    | some v => v = ("1") || jsToLower v = ("true")
    | none => false

/-- A hex digit `0..f` as a lowercase character (`n` is always below 16 at use sites). -/
def hexDigitChar (n : Nat) : Char :=
  if n < 10 then Char.ofNat ('0'.toNat + n) else Char.ofNat ('a'.toNat + n - 10)

/-- Two-character lowercase hex encoding of one byte (Node `Buffer.toString('hex')`). -/
def byteHex (b : Fin 256) : List Char :=
  hexDigitChar (b.val / 16) :: hexDigitChar (b.val % 16) :: []

/-- Lowercase hex encoding of a byte sequence. -/
def hexEncode : List (Fin 256) → List Char
  | [] => []
  | b :: rest => byteHex b ++ hexEncode rest

/--
`generateSessionId` from `utils.ts`: `crypto.randomBytes(16).toString('hex')`.
The 16 bytes drawn from the cryptographically secure source are a parameter
of the embedding.
-/
def generateSessionId (bytes : List (Fin 256)) : String :=
  ⟨hexEncode bytes⟩

/-- `isValidConnectionString` from `utils.ts`: nonempty and containing one of the two marker substrings. -/
def isValidConnectionString (connectionString : String) : Bool :=
  if connectionString = ("") then false
  else
    containsSub (("InstrumentationKey=").data) connectionString.data ||
    containsSub (("IngestionEndpoint=").data) connectionString.data

/--
`getTelemetryClientVersion` from `utils.ts`.  The module-level cache and the
outcome of reading `package.json` are parameters; the result is the version
string paired with the new cache.  A missing or falsy `version` field and
any read/parse failure both yield `"unknown"`.
-/
def getTelemetryClientVersion (cache : Option String) (readVersion : Option String) :
    String × Option String :=
  match cache with
  | some v => (v, some v)
  | none =>
    let v := match readVersion with
      | some s => if s = ("") then ("unknown") else s
      | none => ("unknown")
    (v, some v)

/-- `getNodeVersion` from `utils.ts`: `process.version.replace(/^v/, '')` strips one leading `v`. -/
def stripLeadingV (s : String) : String :=
  match s.data with
  | 'v' :: rest => ⟨rest⟩
  | _ => s

/-! ### The `TelemetryClient` state machine (`TelemetryClient.ts`) -/

/-- The build-time placeholder `DEFAULT_CONNECTION_STRING`. -/
def DEFAULT_CONNECTION_STRING : String :=
  ("__HEFT_PLUGINS_APP_INSIGHTS_CONNECTION_STRING__")

/-- `TelemetryConfig` as the constructor consumes it: plugin identity plus optional connection string. -/
structure TelemetryConfig where
  pluginName : String
  pluginVersion : String
  connectionString : Option String
deriving DecidableEq

/--
The runtime shape of the `_context` object built by the constructor.  The
`TelemetryContext` interface in `types.ts` also declares a
`telemetryClientVersion : string` field; the constructor never assigns it,
which the embedding records as an `Option` that construction leaves `none`.
-/
structure TelemetryContext where
  osType : String
  osVersion : String
  nodeVersion : String
  isCI : Bool
  sessionId : String
  pluginName : String
  pluginVersion : String
  telemetryClientVersion : Option String
deriving DecidableEq

/-- Ambient system facts read once at construction (`os`, `process`, `ci-info`, `crypto`). -/
structure SystemInfo where
  osType : String
  osVersion : String
  nodeVersionRaw : String
  isCI : Bool
  randomBytes : List (Fin 256)
deriving DecidableEq

/-- The immutable state of a constructed `TelemetryClient`: all three fields are `readonly`. -/
structure TelemetryClient where
  enabled : Bool
  hasClient : Bool
  context : TelemetryContext
deriving DecidableEq

/-- `PluginOutcome` from `types.ts`. -/
inductive PluginOutcome where
  | success
  | warning
  | error
deriving DecidableEq

/-- The string value of a `PluginOutcome` enum member. -/
def PluginOutcome.value : PluginOutcome → String
  | .success => ("success")
  | .warning => ("warning")
  | .error => ("error")

/-- The string values of the `TelemetryEventType` enum from `types.ts`. -/
def TelemetryEventType.installed : String := ("plugin.installed")

/-- `TelemetryEventType.Started`. -/
def TelemetryEventType.started : String := ("plugin.started")

/-- `TelemetryEventType.Completed`. -/
def TelemetryEventType.completed : String := ("plugin.completed")

/-- `TelemetryEventType.Error`. -/
def TelemetryEventType.error : String := ("plugin.error")

/-- `TelemetryEventType.Warning`. -/
def TelemetryEventType.warning : String := ("plugin.warning")

/--
One observable call out of the telemetry core: a sink event, a sink metric,
a sink setup attempt, a sink flush request, or a read of the package version
through `getTelemetryClientVersion` (the last never occurs; it is in the
alphabet so that its absence is a statable property).
-/
inductive SinkCall where
  | event (name : String) (properties : List (String × String))
  | eventMeasured (name : String) (properties : List (String × String))
      (measurementName : String) (measurementValue : Int)
  | metric (name : String) (value : Int) (properties : List (String × String))
  | setup (connectionString : String)
  | flushReq
  | versionRead
deriving DecidableEq

/--
A JavaScript value passed to `trackPluginError`: either an `Error` instance
(carrying its constructor name and message) or any other value (carrying its
`String(...)` coercion).
-/
inductive JsValue where
  | errObj (ctorName : String) (message : String)
  | nonError (coerced : String)
deriving DecidableEq

/-- `getErrorType` from `utils.ts`: the constructor name for `Error` instances, otherwise `"UnknownError"`. -/
def getErrorType : JsValue → String
  | .errObj n _ => n
  | .nonError _ => ("UnknownError")

/-- The value `trackPluginError` sanitizes: `error.message` for `Error` instances, else `String(error)`. -/
def jsErrorMessage : JsValue → String
  | .errObj _ m => m
  | .nonError s => s

/-- JS `a || b` on a possibly-undefined string: `b` when `a` is `undefined` or `""`. -/
def orFalsy (a : Option String) (b : String) : String :=
  match a with
  | some s => if s = ("") then b else s
  | none => b

/-- `_getConnectionString`: config value, else `HEFT_PLUGINS_APP_INSIGHTS_CONNECTION_STRING`, else the placeholder. -/
def getConnectionString (configConnectionString : Option String) (env : EnvMap) : String :=
  orFalsy configConnectionString
    (orFalsy (env ("HEFT_PLUGINS_APP_INSIGHTS_CONNECTION_STRING")) DEFAULT_CONNECTION_STRING)

/-- The `_context` object literal built by the constructor (seven fields assigned; the eighth never). -/
def buildContext (config : TelemetryConfig) (sys : SystemInfo) : TelemetryContext :=
  ⟨sys.osType, sys.osVersion, stripLeadingV sys.nodeVersionRaw, sys.isCI,
    generateSessionId sys.randomBytes, config.pluginName, config.pluginVersion, none⟩

/--
The `TelemetryClient` constructor.  `sinkInitThrows` models whether the App
Insights `setup(...).start()` call throws; the returned list is the trace of
sink-facing calls made during construction.
-/
def mkTelemetryClient (config : TelemetryConfig) (env : EnvMap) (sys : SystemInfo)
    (sinkInitThrows : Bool) : TelemetryClient × List SinkCall :=
  let ctx := buildContext config sys
  if isTelemetryDisabled env then
    (⟨false, false, ctx⟩, [])
  else
    let cs := getConnectionString config.connectionString env
    if !(isValidConnectionString cs) then
      (⟨false, false, ctx⟩, [])
    else if sinkInitThrows then
      (⟨false, false, ctx⟩, [SinkCall.setup cs])
    else
      (⟨true, true, ctx⟩, [SinkCall.setup cs])

/-- `isEnabled()`. -/
def isEnabled (c : TelemetryClient) : Bool := c.enabled

/-- `getContext()` (a defensive copy; copying an immutable record is the identity here). -/
def getContext (c : TelemetryClient) : TelemetryContext := c.context

/--
Result of one `track*` call: the client afterwards (all fields `readonly`,
so always the same client), the sink calls attempted, and whether an
exception escaped to the caller (never, thanks to the `try`/`catch`).
-/
structure TrackResult where
  client : TelemetryClient
  sinkCalls : List SinkCall
  threw : Bool
deriving DecidableEq

/-- `trackPluginInstalled()`.  `ts` is the current ISO timestamp; `sinkThrows` models a sink failure. -/
def trackPluginInstalled (c : TelemetryClient) (ts : String) (_sinkThrows : Bool) : TrackResult :=
  if !(c.enabled && c.hasClient) then ⟨c, [], false⟩
  else
    ⟨c, [SinkCall.event TelemetryEventType.installed ((("timestamp"), ts) :: [])], false⟩

/-- `trackPluginStarted()`. -/
def trackPluginStarted (c : TelemetryClient) (ts : String) (_sinkThrows : Bool) : TrackResult :=
  if !(c.enabled && c.hasClient) then ⟨c, [], false⟩
  else
    ⟨c, [SinkCall.event TelemetryEventType.started ((("timestamp"), ts) :: [])], false⟩

/--
`trackPluginCompleted(durationMs, outcome, warningCount)`: a Completed event
with a duration measurement, then a `plugin.duration` metric.  When the
event call throws, the `catch` skips the metric call.
-/
def trackPluginCompleted (c : TelemetryClient) (durationMs : Int) (outcome : PluginOutcome)
    (warningCount : Int) (ts : String) (sinkThrows : Bool) : TrackResult :=
  if !(c.enabled && c.hasClient) then ⟨c, [], false⟩
  else
    let ev := SinkCall.eventMeasured TelemetryEventType.completed
      ((("timestamp"), ts) :: (("outcome"), outcome.value) ::
        (("warningCount"), toString warningCount) :: [])
      ("durationMs") durationMs
    if sinkThrows then ⟨c, [ev], false⟩
    else ⟨c, [ev, SinkCall.metric ("plugin.duration") durationMs
      ((("outcome"), outcome.value) :: [])], false⟩

/-- `trackPluginError(error, durationMs)`. -/
def trackPluginError (c : TelemetryClient) (e : JsValue) (durationMs : Int)
    (ts : String) (_sinkThrows : Bool) : TrackResult :=
  if !(c.enabled && c.hasClient) then ⟨c, [], false⟩
  else
    ⟨c, [SinkCall.event TelemetryEventType.error
      ((("timestamp"), ts) :: (("errorType"), getErrorType e) ::
        (("errorMessage"), sanitizeErrorMessage (jsErrorMessage e)) ::
        (("durationMs"), toString durationMs) :: [])], false⟩

/-- `trackPluginWarning(category, message)`. -/
def trackPluginWarning (c : TelemetryClient) (category message : String)
    (ts : String) (_sinkThrows : Bool) : TrackResult :=
  if !(c.enabled && c.hasClient) then ⟨c, [], false⟩
  else
    ⟨c, [SinkCall.event TelemetryEventType.warning
      ((("timestamp"), ts) :: (("category"), truncateString category 64) ::
        (("message"), sanitizeErrorMessage message) :: [])], false⟩

/--
Result of `flush()`: the simulated resolution time in milliseconds, the sink
calls attempted, and whether the returned promise rejected (never: a
synchronous throw from the sink rejects the inner promise, and the
surrounding `try`/`catch` absorbs it).
-/
structure FlushResult where
  resolveMs : Nat
  sinkCalls : List SinkCall
  rejected : Bool
deriving DecidableEq

/--
`flush()`.  `sinkThrows` models `this._client.flush(...)` throwing
synchronously; `sinkCallbackAt` is the time (ms) at which the sink would
invoke the completion callback, `none` if it never does.  When enabled, the
promise resolves at the earlier of the callback and the fixed 2000 ms timer.
-/
def flush (c : TelemetryClient) (sinkThrows : Bool) (sinkCallbackAt : Option Nat) : FlushResult :=
  if !(c.enabled && c.hasClient) then ⟨0, [], false⟩
  else if sinkThrows then ⟨0, [SinkCall.flushReq], false⟩
  else
    match sinkCallbackAt with
    | some t => ⟨min t 2000, [SinkCall.flushReq], false⟩
    | none => ⟨2000, [SinkCall.flushReq], false⟩

/-! ### Properties of the pattern pieces used to reason about the scan -/

/--
A piece is space-stable when its behaviour on `u ++ ' ' :: v` only depends
on `u`: none of the six source patterns can match across a space.
-/
def PStable (q : RxPiece) : Prop := ∀ u v, q (u ++ ' ' :: v) = q u

/-- A piece never reports more characters than the input has. -/
def PBounded (q : RxPiece) : Prop := ∀ s n, q s = some n → n ≤ s.length

/-- A piece that cannot match the empty input. -/
def PNil (q : RxPiece) : Prop := q [] = none

/-- Space-stability for a matcher, uniformly in the preceding character. -/
def MStable (M : Matcher) : Prop := ∀ prev u v, M prev (u ++ ' ' :: v) = M prev u

/-- Boundedness for a matcher. -/
def MBounded (M : Matcher) : Prop := ∀ prev s n, M prev s = some n → n ≤ s.length

/-- A matcher that fails on the empty input. -/
def MNil (M : Matcher) : Prop := ∀ prev, M prev [] = none

/-- A matcher that treats a preceding space like the start of the string. -/
def MPrevSpace (M : Matcher) : Prop := ∀ s, M (some ' ') s = M none s

/-! ### Basic lemmas on runs, prefixes and list surgery around a space -/

theorem runLen_le (p : Char → Bool) : ∀ s : List Char, runLen p s ≤ s.length := by
  intro s
  induction s with
  | nil => simp [runLen]
  | cons c cs ih =>
    simp only [runLen, List.length_cons]
    split
    · omega
    · omega

theorem runLen_space (p : Char → Bool) (hp : p ' ' = false) :
    ∀ u v : List Char, runLen p (u ++ ' ' :: v) = runLen p u := by
  intro u v
  induction u with
  | nil => simp [runLen, hp]
  | cons c cs ih => simp [runLen, ih]

theorem getD_space (u v : List Char) (j : Nat) (hj : j ≤ u.length) :
    (u ++ ' ' :: v).getD j ' ' = u.getD j ' ' := by
  induction u generalizing j with
  | nil =>
    have hj0 : j = 0 := by simpa using hj
    subst hj0
    simp [List.getD]
  | cons c cs ih =>
    cases j with
    | zero => simp [List.getD]
    | succ j' =>
      simp only [List.length_cons] at hj
      simpa [List.getD] using ih j' (by omega)

theorem getD_append_lt {α : Type} (l1 l2 : List α) (j : Nat) (d : α) (hj : j < l1.length) :
    (l1 ++ l2).getD j d = l1.getD j d := by
  induction l1 generalizing j with
  | nil => simp at hj
  | cons c cs ih =>
    cases j with
    | zero => simp [List.getD]
    | succ j' =>
      simp only [List.length_cons] at hj
      simpa [List.getD] using ih j' (by omega)

theorem drop_append_le {α : Type} (l1 l2 : List α) (n : Nat) (hn : n ≤ l1.length) :
    (l1 ++ l2).drop n = l1.drop n ++ l2 := by
  induction l1 generalizing n with
  | nil =>
    have hn0 : n = 0 := by simpa using hn
    subst hn0
    simp
  | cons c cs ih =>
    cases n with
    | zero => simp
    | succ n' =>
      simp only [List.length_cons] at hn
      simpa using ih n' (by omega)

theorem startsWithL_space (l : List Char) (hl : l.all (fun c => !(c = ' ')) = true) :
    ∀ u v : List Char, startsWithL l (u ++ ' ' :: v) = startsWithL l u := by
  intro u v
  induction l generalizing u with
  | nil => simp [startsWithL]
  | cons a as ih =>
    simp only [List.all_cons, Bool.and_eq_true, Bool.not_eq_true'] at hl
    cases u with
    | nil =>
      simp only [List.nil_append, startsWithL]
      rw [decide_eq_false (by simpa using hl.1)]
      simp
    | cons b bs =>
      simp only [List.cons_append, startsWithL, List.append_eq]
      rw [ih hl.2 bs]

theorem startsWithL_le (l : List Char) : ∀ s : List Char, startsWithL l s = true → l.length ≤ s.length := by
  induction l with
  | nil => simp
  | cons a as ih =>
    intro s h
    cases s with
    | nil => simp [startsWithL] at h
    | cons b bs =>
      simp only [startsWithL, Bool.and_eq_true] at h
      simpa using ih bs h.2

theorem startsWithL_self_append (t y : List Char) : startsWithL t (t ++ y) = true := by
  induction t with
  | nil => simp [startsWithL]
  | cons a as ih => simp [startsWithL, ih]

theorem startsWithL_self (t : List Char) : startsWithL t t = true := by
  have h := startsWithL_self_append t []
  simpa using h

theorem endsWithL_append (pat x : List Char) : endsWithL pat (x ++ pat) = true := by
  simp only [endsWithL, List.length_append]
  have hx : x.length + pat.length - pat.length = x.length := by omega
  rw [hx, List.drop_left]
  exact startsWithL_self pat

theorem containsSub_append_mid (t y : List Char) :
    ∀ x : List Char, containsSub t (x ++ (t ++ y)) = true := by
  intro x
  induction x with
  | nil =>
    cases h : t ++ y with
    | nil =>
      have ht : t = [] := by
        cases t with
        | nil => rfl
        | cons a as => simp at h
      simp [ht, containsSub, startsWithL]
    | cons c rest =>
      simp only [List.nil_append, h, containsSub]
      rw [← h, startsWithL_self_append]
      simp
  | cons a x' ih =>
    simp only [List.cons_append, containsSub, List.append_eq, ih, Bool.or_true]

/-! ### Space-stability and boundedness of the combinators -/

theorem charP_stable (p : Char → Bool) (hp : p ' ' = false) : PStable (charP p) := by
  intro u v
  cases u with
  | nil => simp [charP, hp]
  | cons c cs => simp [charP]

theorem charP_bounded (p : Char → Bool) : PBounded (charP p) := by
  intro s n h
  cases s with
  | nil => simp [charP] at h
  | cons c cs =>
    simp only [charP] at h
    split at h
    · cases h
      simp
    · cases h

theorem charP_nil (p : Char → Bool) : PNil (charP p) := by
  simp [PNil, charP]

theorem litP_stable (c : Char) (hc : ¬(c = ' ')) : PStable (litP c) := by
  have : (fun d => decide (d = c)) ' ' = false := by
    simp
    intro h
    exact hc h.symm
  exact charP_stable _ this

theorem litP_bounded (c : Char) : PBounded (litP c) := charP_bounded _

theorem litP_nil (c : Char) : PNil (litP c) := charP_nil _

theorem litsP_stable (l : List Char) (hl : l.all (fun c => !(c = ' ')) = true) :
    PStable (litsP l) := by
  intro u v
  simp only [litsP, startsWithL_space l hl u v]

theorem litsP_bounded (l : List Char) : PBounded (litsP l) := by
  intro s n h
  simp only [litsP] at h
  split at h
  · cases h
    exact startsWithL_le l s (by assumption)
  · cases h

theorem plusP_stable (p : Char → Bool) (hp : p ' ' = false) : PStable (plusP p) := by
  intro u v
  simp only [plusP, runLen_space p hp u v]

theorem plusP_bounded (p : Char → Bool) : PBounded (plusP p) := by
  intro s n h
  simp only [plusP] at h
  split at h
  · cases h
  · cases h
    exact runLen_le p s

theorem plusP_nil (p : Char → Bool) : PNil (plusP p) := by
  simp [PNil, plusP, runLen]

theorem optP_stable (q : RxPiece) (hq : PStable q) : PStable (optP q) := by
  intro u v
  simp only [optP, hq u v]

theorem optP_bounded (q : RxPiece) (hq : PBounded q) : PBounded (optP q) := by
  intro s n h
  simp only [optP] at h
  cases hqs : q s with
  | none =>
    rw [hqs] at h
    simp only [Option.getD_none, Option.some.injEq] at h
    omega
  | some m =>
    rw [hqs] at h
    simp only [Option.getD_some, Option.some.injEq] at h
    have := hq s m hqs
    omega

theorem exactNP_stable (p : Char → Bool) (hp : p ' ' = false) (n : Nat) :
    PStable (exactNP p n) := by
  intro u v
  simp only [exactNP, runLen_space p hp u v]

theorem exactNP_bounded (p : Char → Bool) (n : Nat) : PBounded (exactNP p n) := by
  intro s m h
  simp only [exactNP] at h
  split at h
  · cases h
    exact le_trans (by assumption) (runLen_le p s)
  · cases h

theorem pseq_stable (q1 q2 : RxPiece) (h1 : PStable q1) (b1 : PBounded q1)
    (h2 : PStable q2) : PStable (pseq q1 q2) := by
  intro u v
  have h1' := h1 u v
  cases hq1 : q1 u with
  | none => simp [pseq, h1', hq1]
  | some n =>
    have hn : n ≤ u.length := b1 u n hq1
    simp [pseq, h1', hq1, drop_append_le u (' ' :: v) n hn, h2 (u.drop n) v]

theorem pseq_bounded (q1 q2 : RxPiece) (b1 : PBounded q1) (b2 : PBounded q2) :
    PBounded (pseq q1 q2) := by
  intro s m h
  cases hq1 : q1 s with
  | none => simp [pseq, hq1] at h
  | some n =>
    cases hq2 : q2 (s.drop n) with
    | none => simp [pseq, hq1, hq2] at h
    | some k =>
      simp [pseq, hq1, hq2] at h
      have hn := b1 s n hq1
      have hk := b2 (s.drop n) k hq2
      simp only [List.length_drop] at hk
      omega

theorem pseq_nil (q1 q2 : RxPiece) (h1 : PNil q1) : PNil (pseq q1 q2) := by
  have h1' : q1 [] = none := h1
  simp [PNil, pseq, h1']

theorem manyGo_le (q : RxPiece) (hb : PBounded q) :
    ∀ fuel s, manyGo q fuel s ≤ s.length := by
  intro fuel
  induction fuel with
  | zero => intro s; simp [manyGo]
  | succ f ih =>
    intro s
    cases hq : q s with
    | none => simp [manyGo, hq]
    | some n =>
      simp only [manyGo, hq]
      split
      · omega
      · have hn := hb s n hq
        have := ih (s.drop n)
        simp only [List.length_drop] at this
        omega

theorem manyGo_fuel (q : RxPiece) (hb : PBounded q) :
    ∀ fuel s, s.length ≤ fuel → manyGo q fuel s = manyGo q s.length s := by
  intro fuel
  induction fuel using Nat.strong_induction_on with
  | _ f ih =>
    intro s hs
    match f, s with
    | 0, s =>
      have : s.length = 0 := by omega
      rw [this]
    | f' + 1, [] =>
      cases hq : q [] with
      | none => simp [manyGo, hq]
      | some n =>
        have hn0 := hb [] n hq
        simp only [List.length_nil, Nat.le_zero] at hn0
        subst hn0
        simp [manyGo, hq]
    | f' + 1, c :: rest =>
      cases hq : q (c :: rest) with
      | none => simp [manyGo, hq]
      | some n =>
        simp only [manyGo, hq, List.length_cons]
        split
        · rfl
        · have hn1 : 1 ≤ n := by omega
          have hnb := hb (c :: rest) n hq
          simp only [List.length_cons] at hnb hs
          have hd : ((c :: rest).drop n).length ≤ f' := by
            simp only [List.length_drop, List.length_cons]
            omega
          have e1 := ih f' (by omega) ((c :: rest).drop n) hd
          have hd2 : ((c :: rest).drop n).length ≤ rest.length := by
            simp only [List.length_drop, List.length_cons]
            omega
          have e2 := ih rest.length (by omega) ((c :: rest).drop n) hd2
          rw [e1, e2]

theorem manyGo_stable (q : RxPiece) (hs : PStable q) (hb : PBounded q) (hn : PNil q) :
    ∀ k u, u.length ≤ k → ∀ v, manyGo q (u ++ ' ' :: v).length (u ++ ' ' :: v) = manyGo q u.length u := by
  intro k
  induction k with
  | zero =>
    intro u hu v
    have hu0 : u = [] := by
      cases u with
      | nil => rfl
      | cons a as => simp at hu
    subst hu0
    have hq : q (' ' :: v) = none := by
      have := hs [] v
      simp only [List.nil_append] at this
      rw [this]
      exact hn
    simp [manyGo, hq]
  | succ k' ih =>
    intro u hu v
    have hstep := hs u v
    cases hq : q u with
    | none =>
      have hq' : q (u ++ ' ' :: v) = none := by rw [hstep, hq]
      cases hlu : u.length with
      | zero => simp [manyGo, hq']
      | succ m =>
        have : (u ++ ' ' :: v).length = u.length + v.length + 1 := by simp; omega
        rw [this, hlu]
        simp [manyGo, hq', hq]
    | some n =>
      have hq' : q (u ++ ' ' :: v) = some n := by rw [hstep, hq]
      have hnb : n ≤ u.length := hb u n hq
      have hlen : (u ++ ' ' :: v).length = u.length + v.length + 1 := by simp; omega
      cases hu0 : u with
      | nil =>
        subst hu0
        have : q [] = none := hn
        rw [this] at hq
        cases hq
      | cons c rest =>
        rw [← hu0]
        have hul : 1 ≤ u.length := by rw [hu0]; simp
        obtain ⟨m, hm⟩ : ∃ m, u.length = m + 1 := ⟨u.length - 1, by omega⟩
        rw [hlen, hm]
        have hlhs : u.length + v.length + 1 = (m + 1 + v.length) + 1 := by omega
        simp only [manyGo, hq, hq']
        split
        · rfl
        · have hn1 : 1 ≤ n := by omega
          have hdrop : (u ++ ' ' :: v).drop n = u.drop n ++ ' ' :: v :=
            drop_append_le u (' ' :: v) n hnb
          rw [hdrop]
          have hfd2 : (u.drop n).length ≤ m := by
            simp only [List.length_drop]
            omega
          rw [manyGo_fuel q hb (m + 1 + v.length) (u.drop n ++ ' ' :: v) (by
            simp only [List.length_append, List.length_drop, List.length_cons]
            omega)]
          rw [manyGo_fuel q hb m (u.drop n) hfd2]
          rw [ih (u.drop n) (by omega) v]

theorem manyPr_stable (q : RxPiece) (hs : PStable q) (hb : PBounded q) (hn : PNil q) :
    PStable (manyPr q) := by
  intro u v
  simp only [manyPr]
  rw [manyGo_stable q hs hb hn u.length u (le_refl _) v]

theorem manyPr_bounded (q : RxPiece) (hb : PBounded q) : PBounded (manyPr q) := by
  intro s n h
  simp only [manyPr, Option.some.injEq] at h
  have := manyGo_le q hb s.length s
  omega

theorem dotSearch_range (t : List Char) :
    ∀ k0 k, dotSearch t k0 = some k → 1 ≤ k ∧ k ≤ k0 := by
  intro k0
  induction k0 with
  | zero => intro k h; simp [dotSearch] at h
  | succ j ih =>
    intro k h
    simp only [dotSearch] at h
    split at h
    · simp only [Option.some.injEq] at h
      omega
    · have := ih k h
      omega

theorem dotSearch_stable (u v : List Char) :
    ∀ k0, k0 + 1 ≤ u.length → dotSearch (u ++ ' ' :: v) k0 = dotSearch u k0 := by
  intro k0
  induction k0 with
  | zero => intro _; simp [dotSearch]
  | succ j ih =>
    intro hk
    have h1 : (u ++ ' ' :: v).getD (j + 1) ' ' = u.getD (j + 1) ' ' :=
      getD_space u v (j + 1) (by omega)
    have h2 : (u ++ ' ' :: v).getD (j + 2) ' ' = u.getD (j + 2) ' ' :=
      getD_space u v (j + 2) (by omega)
    simp only [dotSearch, h1, h2]
    split
    · rfl
    · exact ih (by omega)

theorem emailTailP_stable : PStable emailTailP := by
  intro u v
  simp only [emailTailP, runLen_space isSegChar rfl u v]
  have hb : runLen isSegChar u ≤ u.length := runLen_le _ u
  cases hbz : runLen isSegChar u with
  | zero => simp [dotSearch]
  | succ b' =>
    have hds : dotSearch (u ++ ' ' :: v) (b' + 1 - 1) = dotSearch u (b' + 1 - 1) := by
      apply dotSearch_stable
      omega
    rw [hds]
    cases hd : dotSearch u (b' + 1 - 1) with
    | none => rfl
    | some k =>
      have hk := dotSearch_range u (b' + 1 - 1) k hd
      have hk1 : k + 1 ≤ u.length := by omega
      simp only [Option.map_some']
      rw [drop_append_le u (' ' :: v) (k + 1) hk1]
      rw [runLen_space isWordChar rfl (u.drop (k + 1)) v]

theorem emailTailP_bounded : PBounded emailTailP := by
  intro s n h
  simp only [emailTailP] at h
  cases hd : dotSearch s (runLen isSegChar s - 1) with
  | none => rw [hd] at h; cases h
  | some k =>
    rw [hd] at h
    simp only [Option.map_some', Option.some.injEq] at h
    have hk := dotSearch_range s _ k hd
    have hb : runLen isSegChar s ≤ s.length := runLen_le _ s
    have hw : runLen isWordChar (s.drop (k + 1)) ≤ s.length - (k + 1) := by
      have := runLen_le isWordChar (s.drop (k + 1))
      simpa using this
    have hkb : k ≤ runLen isSegChar s - 1 := hk.2
    cases hbz : runLen isSegChar s with
    | zero =>
      rw [hbz] at hkb
      omega
    | succ b' =>
      rw [hbz] at hkb
      omega

theorem ipGroupP_stable : PStable ipGroupP := by
  intro u v
  simp only [ipGroupP, runLen_space Char.isDigit rfl u v]

theorem ipGroupP_bounded : PBounded ipGroupP := by
  intro s n h
  simp only [ipGroupP] at h
  split at h
  · simp only [Option.some.injEq] at h
    have := runLen_le Char.isDigit s
    omega
  · cases h

theorem ipGroupP_nil : PNil ipGroupP := by
  simp [PNil, ipGroupP, runLen]

theorem ipEndP_stable : PStable ipEndP := by
  intro u v
  cases u with
  | nil => simp [ipEndP, List.getD]
  | cons c cs => simp [ipEndP, List.getD]

theorem ipEndP_bounded : PBounded ipEndP := by
  intro s n h
  simp only [ipEndP] at h
  split at h
  · cases h
  · simp only [Option.some.injEq] at h
    omega

/-! ### The six source patterns are space-stable, bounded and fail on empty input -/

theorem urlP_stable : PStable urlP :=
  pseq_stable _ _ (litsP_stable _ (by decide)) (litsP_bounded _)
    (pseq_stable _ _ (optP_stable _ (litP_stable 's' (by decide))) (optP_bounded _ (litP_bounded _))
      (pseq_stable _ _ (litsP_stable _ (by decide)) (litsP_bounded _)
        (plusP_stable isNonSpace (by decide))))

theorem urlP_bounded : PBounded urlP :=
  pseq_bounded _ _ (litsP_bounded _)
    (pseq_bounded _ _ (optP_bounded _ (litP_bounded _))
      (pseq_bounded _ _ (litsP_bounded _) (plusP_bounded isNonSpace)))

theorem urlP_nil : PNil urlP := by
  show urlP [] = none
  decide

theorem emailP_stable : PStable emailP :=
  pseq_stable _ _ (plusP_stable isSegChar rfl) (plusP_bounded _)
    (pseq_stable _ _ (litP_stable '@' (by decide)) (litP_bounded _) emailTailP_stable)

theorem emailP_bounded : PBounded emailP :=
  pseq_bounded _ _ (plusP_bounded _)
    (pseq_bounded _ _ (litP_bounded _) emailTailP_bounded)

theorem emailP_nil : PNil emailP := by
  show emailP [] = none
  decide

theorem ipQuadP_stable : PStable ipQuadP :=
  pseq_stable _ _ ipGroupP_stable ipGroupP_bounded
    (pseq_stable _ _ (litP_stable '.' (by decide)) (litP_bounded _)
      (pseq_stable _ _ ipGroupP_stable ipGroupP_bounded
        (pseq_stable _ _ (litP_stable '.' (by decide)) (litP_bounded _)
          (pseq_stable _ _ ipGroupP_stable ipGroupP_bounded
            (pseq_stable _ _ (litP_stable '.' (by decide)) (litP_bounded _)
              (pseq_stable _ _ ipGroupP_stable ipGroupP_bounded ipEndP_stable))))))

theorem ipQuadP_bounded : PBounded ipQuadP :=
  pseq_bounded _ _ ipGroupP_bounded
    (pseq_bounded _ _ (litP_bounded _)
      (pseq_bounded _ _ ipGroupP_bounded
        (pseq_bounded _ _ (litP_bounded _)
          (pseq_bounded _ _ ipGroupP_bounded
            (pseq_bounded _ _ (litP_bounded _)
              (pseq_bounded _ _ ipGroupP_bounded ipEndP_bounded))))))

theorem ipQuadP_nil : PNil ipQuadP := by
  show ipQuadP [] = none
  decide

theorem uuidP_stable : PStable uuidP :=
  pseq_stable _ _ (exactNP_stable isUuidHex rfl 8) (exactNP_bounded _ 8)
    (pseq_stable _ _ (litP_stable '-' (by decide)) (litP_bounded _)
      (pseq_stable _ _ (exactNP_stable isUuidHex rfl 4) (exactNP_bounded _ 4)
        (pseq_stable _ _ (litP_stable '-' (by decide)) (litP_bounded _)
          (pseq_stable _ _ (exactNP_stable isUuidHex rfl 4) (exactNP_bounded _ 4)
            (pseq_stable _ _ (litP_stable '-' (by decide)) (litP_bounded _)
              (pseq_stable _ _ (exactNP_stable isUuidHex rfl 4) (exactNP_bounded _ 4)
                (pseq_stable _ _ (litP_stable '-' (by decide)) (litP_bounded _)
                  (exactNP_stable isUuidHex rfl 12))))))))

theorem uuidP_bounded : PBounded uuidP :=
  pseq_bounded _ _ (exactNP_bounded _ 8)
    (pseq_bounded _ _ (litP_bounded _)
      (pseq_bounded _ _ (exactNP_bounded _ 4)
        (pseq_bounded _ _ (litP_bounded _)
          (pseq_bounded _ _ (exactNP_bounded _ 4)
            (pseq_bounded _ _ (litP_bounded _)
              (pseq_bounded _ _ (exactNP_bounded _ 4)
                (pseq_bounded _ _ (litP_bounded _) (exactNP_bounded _ 12))))))))

theorem uuidP_nil : PNil uuidP := by
  show uuidP [] = none
  decide

theorem posixSegP_stable : PStable posixSegP :=
  pseq_stable _ _ (litP_stable '/' (by decide)) (litP_bounded _) (plusP_stable isSegChar rfl)

theorem posixSegP_bounded : PBounded posixSegP :=
  pseq_bounded _ _ (litP_bounded _) (plusP_bounded _)

theorem posixSegP_nil : PNil posixSegP := by
  show posixSegP [] = none
  decide

theorem posixP_stable : PStable posixP :=
  pseq_stable _ _ posixSegP_stable posixSegP_bounded
    (pseq_stable _ _ (manyPr_stable _ posixSegP_stable posixSegP_bounded posixSegP_nil)
      (manyPr_bounded _ posixSegP_bounded)
      (optP_stable _ (litP_stable '/' (by decide))))

theorem posixP_bounded : PBounded posixP :=
  pseq_bounded _ _ posixSegP_bounded
    (pseq_bounded _ _ (manyPr_bounded _ posixSegP_bounded) (optP_bounded _ (litP_bounded _)))

theorem posixP_nil : PNil posixP := by
  show posixP [] = none
  decide

theorem winSegP_stable : PStable winSegP :=
  pseq_stable _ _ (plusP_stable isSegChar rfl) (plusP_bounded _) (litP_stable '\\' (by decide))

theorem winSegP_bounded : PBounded winSegP :=
  pseq_bounded _ _ (plusP_bounded _) (litP_bounded _)

theorem winSegP_nil : PNil winSegP := by
  show winSegP [] = none
  decide

theorem winP_stable : PStable winP :=
  pseq_stable _ _ (charP_stable Char.isAlpha (by decide)) (charP_bounded _)
    (pseq_stable _ _ (litP_stable ':' (by decide)) (litP_bounded _)
      (pseq_stable _ _ (litP_stable '\\' (by decide)) (litP_bounded _)
        (manyPr_stable _ winSegP_stable winSegP_bounded winSegP_nil)))

theorem winP_bounded : PBounded winP :=
  pseq_bounded _ _ (charP_bounded _)
    (pseq_bounded _ _ (litP_bounded _)
      (pseq_bounded _ _ (litP_bounded _) (manyPr_bounded _ winSegP_bounded)))

theorem winP_nil : PNil winP := by
  show winP [] = none
  decide

/-! ### Matcher-level properties -/

theorem liftP_mstable (q : RxPiece) (h : PStable q) : MStable (liftP q) :=
  fun _ u v => h u v

theorem liftP_mbounded (q : RxPiece) (h : PBounded q) : MBounded (liftP q) :=
  fun _ s n hs => h s n hs

theorem liftP_mnil (q : RxPiece) (h : PNil q) : MNil (liftP q) :=
  fun _ => h

theorem liftP_mprev (q : RxPiece) : MPrevSpace (liftP q) :=
  fun _ => rfl

theorem ipM_mstable : MStable ipM := by
  intro prev u v
  simp only [ipM]
  split
  · exact ipQuadP_stable u v
  · rfl

theorem ipM_mbounded : MBounded ipM := by
  intro prev s n h
  simp only [ipM] at h
  split at h
  · exact ipQuadP_bounded s n h
  · cases h

theorem ipM_mnil : MNil ipM := by
  intro prev
  simp only [ipM]
  split
  · exact ipQuadP_nil
  · rfl

theorem ipM_mprev : MPrevSpace ipM := by
  intro s
  have h1 : boundaryOk (some ' ') = true := by decide
  have h2 : boundaryOk none = true := by decide
  simp only [ipM, h1, h2, if_true]

/-! ### The global-replace scan splits at spaces -/

theorem replaceGo_fuel (M : Matcher) (tok : List Char) :
    ∀ f g prev s, s.length ≤ f → s.length ≤ g →
      replaceGo M tok f prev s = replaceGo M tok g prev s := by
  intro f
  induction f with
  | zero =>
    intro g prev s hf _
    have : s = [] := by
      cases s with
      | nil => rfl
      | cons c cs => simp at hf
    subst this
    cases g with
    | zero => rfl
    | succ g' => rfl
  | succ f' ih =>
    intro g prev s hf hg
    cases s with
    | nil =>
      cases g with
      | zero => rfl
      | succ g' => rfl
    | cons c rest =>
      cases g with
      | zero => simp at hg
      | succ g' =>
        simp only [List.length_cons] at hf hg
        cases hM : M prev (c :: rest) with
        | some n =>
          simp only [replaceGo, hM]
          rw [ih g' (some ((c :: rest).getD (n - 1) c)) (rest.drop (n - 1))
            (by simp only [List.length_drop]; omega)
            (by simp only [List.length_drop]; omega)]
        | none =>
          simp only [replaceGo, hM]
          rw [ih g' (some c) rest (by omega) (by omega)]

theorem replaceGo_prev_space (M : Matcher) (tok : List Char) (hp : MPrevSpace M) :
    ∀ f v, replaceGo M tok f (some ' ') v = replaceGo M tok f none v := by
  intro f v
  cases f with
  | zero => rfl
  | succ f' =>
    cases v with
    | nil => rfl
    | cons c rest =>
      simp only [replaceGo, hp (c :: rest)]

theorem replaceGo_space (M : Matcher) (tok : List Char)
    (hs : MStable M) (hb : MBounded M) (hn : MNil M) :
    ∀ f u v prev, u.length + v.length + 1 ≤ f →
      replaceGo M tok f prev (u ++ ' ' :: v) =
        replaceGo M tok u.length prev u ++ ' ' :: replaceGo M tok v.length (some ' ') v := by
  intro f
  induction f with
  | zero =>
    intro u v prev hf
    omega
  | succ f' ih =>
    intro u v prev hf
    cases u with
    | nil =>
      have hM : M prev (' ' :: v) = none := by
        have h1 := hs prev [] v
        simp only [List.nil_append] at h1
        rw [h1]
        exact hn prev
      simp only [List.nil_append, replaceGo, hM, List.length_nil]
      rw [replaceGo_fuel M tok f' v.length (some ' ') v (by omega) (le_refl _)]
    | cons c u' =>
      have hlen : (c :: u').length = u'.length + 1 := by simp
      have hM : M prev (c :: (u' ++ ' ' :: v)) = M prev (c :: u') := by
        have := hs prev (c :: u') v
        simpa using this
      simp only [List.cons_append] at hf ⊢
      simp only [List.length_cons] at hf
      cases hMc : M prev (c :: u') with
      | none =>
        simp only [replaceGo, hM, hMc, hlen]
        rw [ih u' v (some c) (by omega)]
        simp [List.cons_append]
      | some n =>
        have hnb : n ≤ u'.length + 1 := by
          have := hb prev (c :: u') n hMc
          simpa using this
        have hgd : (c :: (u' ++ ' ' :: v)).getD (n - 1) c = (c :: u').getD (n - 1) c := by
          have he : c :: (u' ++ ' ' :: v) = (c :: u') ++ ' ' :: v := by simp
          rw [he]
          exact getD_append_lt (c :: u') (' ' :: v) (n - 1) c (by simp; omega)
        have hdrop : (u' ++ ' ' :: v).drop (n - 1) = u'.drop (n - 1) ++ ' ' :: v :=
          drop_append_le u' (' ' :: v) (n - 1) (by omega)
        simp only [replaceGo, hM, hMc, hlen, hgd, hdrop]
        rw [ih (u'.drop (n - 1)) v (some ((c :: u').getD (n - 1) c))
          (by simp only [List.length_drop]; omega)]
        rw [replaceGo_fuel M tok u'.length (u'.drop (n - 1)).length
          (some ((c :: u').getD (n - 1) c)) (u'.drop (n - 1))
          (by simp only [List.length_drop]; omega) (le_refl _)]
        simp [List.append_assoc]

theorem replacePass_space (M : Matcher) (tok : List Char)
    (hs : MStable M) (hb : MBounded M) (hn : MNil M) (hp : MPrevSpace M)
    (u v : List Char) :
    replacePass M tok (u ++ ' ' :: v) = replacePass M tok u ++ ' ' :: replacePass M tok v := by
  simp only [replacePass]
  rw [replaceGo_space M tok hs hb hn (u ++ ' ' :: v).length u v none
    (by simp only [List.length_append, List.length_cons]; omega)]
  rw [replaceGo_prev_space M tok hp v.length v]

theorem applySanitizePatterns_space (u v : List Char) :
    applySanitizePatterns (u ++ ' ' :: v) =
      applySanitizePatterns u ++ ' ' :: applySanitizePatterns v := by
  simp only [applySanitizePatterns, SANITIZE_PATTERNS, List.foldl_cons, List.foldl_nil]
  rw [replacePass_space urlM _ (liftP_mstable _ urlP_stable) (liftP_mbounded _ urlP_bounded)
    (liftP_mnil _ urlP_nil) (liftP_mprev _)]
  rw [replacePass_space emailM _ (liftP_mstable _ emailP_stable) (liftP_mbounded _ emailP_bounded)
    (liftP_mnil _ emailP_nil) (liftP_mprev _)]
  rw [replacePass_space ipM _ ipM_mstable ipM_mbounded ipM_mnil ipM_mprev]
  rw [replacePass_space uuidM _ (liftP_mstable _ uuidP_stable) (liftP_mbounded _ uuidP_bounded)
    (liftP_mnil _ uuidP_nil) (liftP_mprev _)]
  rw [replacePass_space posixM _ (liftP_mstable _ posixP_stable) (liftP_mbounded _ posixP_bounded)
    (liftP_mnil _ posixP_nil) (liftP_mprev _)]
  rw [replacePass_space winM _ (liftP_mstable _ winP_stable) (liftP_mbounded _ winP_bounded)
    (liftP_mnil _ winP_nil) (liftP_mprev _)]

/-! ### Claim theorems -/

/--
C5.  `isDisabled()` returns true iff at least one of the four variables
`HEFT_TELEMETRY_DISABLED`, `DISABLE_TELEMETRY`, `DO_NOT_TRACK`,
`TELEMETRY_DISABLED` is set to `"1"` or to a value that case-insensitively
equals `"true"`; unset or any other value yields false.
-/
theorem c5_opt_out_gate_iff (env : EnvMap) :
    isTelemetryDisabled env = true ↔
      ∃ name, name ∈ TELEMETRY_OPT_OUT_VARS ∧ ∃ v, env name = some v ∧
        (v = ("1") ∨ jsToLower v = ("true")) := by
  simp only [isTelemetryDisabled, List.any_eq_true]
  constructor
  · rintro ⟨name, hmem, hpred⟩
    refine ⟨name, hmem, ?_⟩
    cases henv : env name with
    | none => simp [henv] at hpred
    | some v =>
      simp only [henv, Bool.or_eq_true, decide_eq_true_eq] at hpred
      exact ⟨v, rfl, hpred⟩
  · rintro ⟨name, hmem, v, henv, hv⟩
    refine ⟨name, hmem, ?_⟩
    simp only [henv, Bool.or_eq_true, decide_eq_true_eq]
    exact hv

/--
C4.  For every input, if the post-substitution string exceeds 512
characters, `sanitizeErrorMessage` returns exactly its first 509 characters
followed by `...` (total length exactly 512, ending in `...`); otherwise it
returns the post-substitution string unchanged.
-/
theorem c4_sanitize_truncation (s : List Char) :
    (512 < (applySanitizePatterns s).length →
      sanitizeErrorMessageL s =
        (applySanitizePatterns s).take 509 ++ ('.' :: '.' :: '.' :: []) ∧
      (sanitizeErrorMessageL s).length = 512 ∧
      endsWithL ('.' :: '.' :: '.' :: []) (sanitizeErrorMessageL s) = true) ∧
    ((applySanitizePatterns s).length ≤ 512 →
      sanitizeErrorMessageL s = applySanitizePatterns s) := by
  constructor
  · intro hlong
    have hval : sanitizeErrorMessageL s =
        (applySanitizePatterns s).take 509 ++ ('.' :: '.' :: '.' :: []) := by
      simp only [sanitizeErrorMessageL, truncateStringL]
      rw [if_neg (by omega)]
    have htake : ((applySanitizePatterns s).take 509).length = 509 := by
      simp only [List.length_take]
      omega
    have hlen : (sanitizeErrorMessageL s).length = 512 := by
      rw [hval]
      simp only [List.length_append, htake, List.length_cons, List.length_nil]
    refine ⟨hval, hlen, ?_⟩
    rw [hval]
    exact endsWithL_append _ _
  · intro hshort
    simp only [sanitizeErrorMessageL, truncateStringL]
    rw [if_pos hshort]

/--
Witness for C4 at the concrete input of 513 commas: no pattern matches, so
the post-substitution string has length 513 > 512 and the output is the
first 509 commas followed by `...`.
-/
theorem c4_sanitize_truncation_witness :
    512 < (applySanitizePatterns (List.replicate 513 ',')).length ∧
    (sanitizeErrorMessageL (List.replicate 513 ',') =
      (applySanitizePatterns (List.replicate 513 ',')).take 509 ++ ('.' :: '.' :: '.' :: []) ∧
    (sanitizeErrorMessageL (List.replicate 513 ',')).length = 512 ∧
    endsWithL ('.' :: '.' :: '.' :: []) (sanitizeErrorMessageL (List.replicate 513 ',')) = true) :=
  ⟨by decide, (c4_sanitize_truncation (List.replicate 513 ',')).1 (by decide)⟩

/--
C8.  On the spec's example input, the sanitized output contains `[URL]`
exactly once and `[EMAIL]` exactly once, and contains none of `/home/user`,
`user@example.com`, `https://`.
-/
theorem c8_example_scenario :
    countSub (("[URL]").data)
      ((sanitizeErrorMessage
        ("Error at /home/user/project/src/file.ts, contact user@example.com, see https://api.example.com/data")).data) = 1 ∧
    countSub (("[EMAIL]").data)
      ((sanitizeErrorMessage
        ("Error at /home/user/project/src/file.ts, contact user@example.com, see https://api.example.com/data")).data) = 1 ∧
    containsSub (("/home/user").data)
      ((sanitizeErrorMessage
        ("Error at /home/user/project/src/file.ts, contact user@example.com, see https://api.example.com/data")).data) = false ∧
    containsSub (("user@example.com").data)
      ((sanitizeErrorMessage
        ("Error at /home/user/project/src/file.ts, contact user@example.com, see https://api.example.com/data")).data) = false ∧
    containsSub (("https://").data)
      ((sanitizeErrorMessage
        ("Error at /home/user/project/src/file.ts, contact user@example.com, see https://api.example.com/data")).data) = false := by
  decide

theorem hexDigitChar_class : ∀ n, n < 16 →
    ((hexDigitChar n).isDigit || ('a' ≤ hexDigitChar n && hexDigitChar n ≤ 'f')) = true := by
  decide

theorem hexDigitChar_inj : ∀ a, a < 16 → ∀ b, b < 16 → hexDigitChar a = hexDigitChar b → a = b := by
  decide

theorem hexEncode_length : ∀ l : List (Fin 256), (hexEncode l).length = 2 * l.length := by
  intro l
  induction l with
  | nil => simp [hexEncode]
  | cons b r ih =>
    simp only [hexEncode, byteHex, List.cons_append, List.nil_append, List.length_cons, ih,
      List.length_cons]
    omega

theorem byteHex_inj (b1 b2 : Fin 256) (h : byteHex b1 = byteHex b2) : b1 = b2 := by
  simp only [byteHex, List.cons.injEq, and_true] at h
  obtain ⟨h1, h2⟩ := h
  have hb1 := b1.isLt
  have hb2 := b2.isLt
  have d1 : b1.val / 16 < 16 := by omega
  have d2 : b2.val / 16 < 16 := by omega
  have m1 : b1.val % 16 < 16 := by omega
  have m2 : b2.val % 16 < 16 := by omega
  have e1 : b1.val / 16 = b2.val / 16 := hexDigitChar_inj _ d1 _ d2 h1
  have e2 : b1.val % 16 = b2.val % 16 := hexDigitChar_inj _ m1 _ m2 h2
  apply Fin.ext
  omega

theorem hexEncode_inj : ∀ l1 l2 : List (Fin 256), hexEncode l1 = hexEncode l2 → l1 = l2 := by
  intro l1
  induction l1 with
  | nil =>
    intro l2 h
    cases l2 with
    | nil => rfl
    | cons b r => simp [hexEncode, byteHex] at h
  | cons b r ih =>
    intro l2 h
    cases l2 with
    | nil => simp [hexEncode, byteHex] at h
    | cons b2 r2 =>
      simp only [hexEncode, byteHex, List.cons_append, List.nil_append, List.cons.injEq] at h
      obtain ⟨h1, h2, h3⟩ := h
      have hb : b = b2 := byteHex_inj b b2 (by simp [byteHex, h1, h2])
      rw [hb, ih r2 h3]

theorem hexEncode_class : ∀ l : List (Fin 256),
    ((hexEncode l).all (fun c => c.isDigit || ('a' ≤ c && c ≤ 'f'))) = true := by
  intro l
  induction l with
  | nil => simp [hexEncode]
  | cons b r ih =>
    have hb := b.isLt
    have hd : b.val / 16 < 16 := by omega
    have hm : b.val % 16 < 16 := by omega
    simp only [hexEncode, byteHex, List.cons_append, List.nil_append, List.all_cons, ih,
      hexDigitChar_class _ hd, hexDigitChar_class _ hm, Bool.and_true, Bool.true_and]

/--
C9.  `generateSessionId` hex-encodes the 16 random bytes: the result is a
32-character string of lowercase hex digits, and two calls return equal
strings only when the underlying byte sequences coincide.
-/
theorem c9_generateSessionId_spec (bytes : List (Fin 256)) (h16 : bytes.length = 16)
    (bytes2 : List (Fin 256)) :
    (generateSessionId bytes).length = 32 ∧
    ((generateSessionId bytes).data.all (fun c => c.isDigit || ('a' ≤ c && c ≤ 'f'))) = true ∧
    (generateSessionId bytes = generateSessionId bytes2 → bytes = bytes2) := by
  refine ⟨?_, ?_, ?_⟩
  · show (hexEncode bytes).length = 32
    rw [hexEncode_length]
    omega
  · exact hexEncode_class bytes
  · intro h
    have hdata : hexEncode bytes = hexEncode bytes2 := congrArg String.data h
    exact hexEncode_inj _ _ hdata

/-- Witness for C9 at the all-zero byte sequence. -/
theorem c9_generateSessionId_spec_witness :
    (List.replicate 16 (0 : Fin 256)).length = 16 ∧
    ((generateSessionId (List.replicate 16 (0 : Fin 256))).length = 32 ∧
    ((generateSessionId (List.replicate 16 (0 : Fin 256))).data.all
      (fun c => c.isDigit || ('a' ≤ c && c ≤ 'f'))) = true ∧
    (generateSessionId (List.replicate 16 (0 : Fin 256)) =
        generateSessionId (List.replicate 16 (0 : Fin 256)) →
      List.replicate 16 (0 : Fin 256) = List.replicate 16 (0 : Fin 256))) :=
  ⟨by decide,
    c9_generateSessionId_spec (List.replicate 16 (0 : Fin 256)) (by decide)
      (List.replicate 16 (0 : Fin 256))⟩

/--
C1.  A client constructed while any opt-out variable is active is Disabled:
`isEnabled()` is false, every tracking operation attempts no sink call,
throws nothing and returns the client unchanged, and `flush()` resolves
immediately.
-/
theorem c1_disabled_client_noop (config : TelemetryConfig) (env : EnvMap) (sys : SystemInfo)
    (sit : Bool) (ts : String) (d wc : Int) (oc : PluginOutcome) (e : JsValue)
    (cat msg : String) (st : Bool) (cbt : Option Nat)
    (hdis : isTelemetryDisabled env = true) :
    isEnabled (mkTelemetryClient config env sys sit).1 = false ∧
    (mkTelemetryClient config env sys sit).2 = [] ∧
    trackPluginInstalled (mkTelemetryClient config env sys sit).1 ts st =
      ⟨(mkTelemetryClient config env sys sit).1, [], false⟩ ∧
    trackPluginStarted (mkTelemetryClient config env sys sit).1 ts st =
      ⟨(mkTelemetryClient config env sys sit).1, [], false⟩ ∧
    trackPluginCompleted (mkTelemetryClient config env sys sit).1 d oc wc ts st =
      ⟨(mkTelemetryClient config env sys sit).1, [], false⟩ ∧
    trackPluginError (mkTelemetryClient config env sys sit).1 e d ts st =
      ⟨(mkTelemetryClient config env sys sit).1, [], false⟩ ∧
    trackPluginWarning (mkTelemetryClient config env sys sit).1 cat msg ts st =
      ⟨(mkTelemetryClient config env sys sit).1, [], false⟩ ∧
    flush (mkTelemetryClient config env sys sit).1 st cbt = ⟨0, [], false⟩ := by
  have hc : mkTelemetryClient config env sys sit =
      (⟨false, false, buildContext config sys⟩, []) := by
    simp [mkTelemetryClient, hdis]
  rw [hc]
  exact ⟨rfl, rfl, rfl, rfl, rfl, rfl, rfl, rfl⟩

/-- Witness for C1 with `DO_NOT_TRACK=1` and concrete arguments everywhere. -/
theorem c1_disabled_client_noop_witness :
    isTelemetryDisabled (fun n => if n = ("DO_NOT_TRACK") then some ("1") else none) = true ∧
    (isEnabled (mkTelemetryClient ⟨("p"), ("1.0.0"), none⟩
      (fun n => if n = ("DO_NOT_TRACK") then some ("1") else none)
      ⟨("linux"), ("6.1"), ("v20.0.0"), false, []⟩ false).1 = false ∧
    (mkTelemetryClient ⟨("p"), ("1.0.0"), none⟩
      (fun n => if n = ("DO_NOT_TRACK") then some ("1") else none)
      ⟨("linux"), ("6.1"), ("v20.0.0"), false, []⟩ false).2 = [] ∧
    trackPluginInstalled (mkTelemetryClient ⟨("p"), ("1.0.0"), none⟩
      (fun n => if n = ("DO_NOT_TRACK") then some ("1") else none)
      ⟨("linux"), ("6.1"), ("v20.0.0"), false, []⟩ false).1 ("t") false =
      ⟨(mkTelemetryClient ⟨("p"), ("1.0.0"), none⟩
        (fun n => if n = ("DO_NOT_TRACK") then some ("1") else none)
        ⟨("linux"), ("6.1"), ("v20.0.0"), false, []⟩ false).1, [], false⟩ ∧
    trackPluginStarted (mkTelemetryClient ⟨("p"), ("1.0.0"), none⟩
      (fun n => if n = ("DO_NOT_TRACK") then some ("1") else none)
      ⟨("linux"), ("6.1"), ("v20.0.0"), false, []⟩ false).1 ("t") false =
      ⟨(mkTelemetryClient ⟨("p"), ("1.0.0"), none⟩
        (fun n => if n = ("DO_NOT_TRACK") then some ("1") else none)
        ⟨("linux"), ("6.1"), ("v20.0.0"), false, []⟩ false).1, [], false⟩ ∧
    trackPluginCompleted (mkTelemetryClient ⟨("p"), ("1.0.0"), none⟩
      (fun n => if n = ("DO_NOT_TRACK") then some ("1") else none)
      ⟨("linux"), ("6.1"), ("v20.0.0"), false, []⟩ false).1 1500 PluginOutcome.success 0 ("t") false =
      ⟨(mkTelemetryClient ⟨("p"), ("1.0.0"), none⟩
        (fun n => if n = ("DO_NOT_TRACK") then some ("1") else none)
        ⟨("linux"), ("6.1"), ("v20.0.0"), false, []⟩ false).1, [], false⟩ ∧
    trackPluginError (mkTelemetryClient ⟨("p"), ("1.0.0"), none⟩
      (fun n => if n = ("DO_NOT_TRACK") then some ("1") else none)
      ⟨("linux"), ("6.1"), ("v20.0.0"), false, []⟩ false).1 (JsValue.nonError ("boom")) 1500 ("t") false =
      ⟨(mkTelemetryClient ⟨("p"), ("1.0.0"), none⟩
        (fun n => if n = ("DO_NOT_TRACK") then some ("1") else none)
        ⟨("linux"), ("6.1"), ("v20.0.0"), false, []⟩ false).1, [], false⟩ ∧
    trackPluginWarning (mkTelemetryClient ⟨("p"), ("1.0.0"), none⟩
      (fun n => if n = ("DO_NOT_TRACK") then some ("1") else none)
      ⟨("linux"), ("6.1"), ("v20.0.0"), false, []⟩ false).1 ("cfg") ("warn") ("t") false =
      ⟨(mkTelemetryClient ⟨("p"), ("1.0.0"), none⟩
        (fun n => if n = ("DO_NOT_TRACK") then some ("1") else none)
        ⟨("linux"), ("6.1"), ("v20.0.0"), false, []⟩ false).1, [], false⟩ ∧
    flush (mkTelemetryClient ⟨("p"), ("1.0.0"), none⟩
      (fun n => if n = ("DO_NOT_TRACK") then some ("1") else none)
      ⟨("linux"), ("6.1"), ("v20.0.0"), false, []⟩ false).1 false none = ⟨0, [], false⟩) :=
  ⟨by decide,
    c1_disabled_client_noop ⟨("p"), ("1.0.0"), none⟩
      (fun n => if n = ("DO_NOT_TRACK") then some ("1") else none)
      ⟨("linux"), ("6.1"), ("v20.0.0"), false, []⟩ false ("t") 1500 0 PluginOutcome.success
      (JsValue.nonError ("boom")) ("cfg") ("warn") false none (by decide)⟩

/--
C2.  `flush()` always resolves and never rejects: it resolves immediately
when the client is Disabled; when Enabled it resolves at the earlier of the
sink callback and the fixed 2-second timer (2000 ms when the sink never
calls back), and a sink exception is caught, still resolving.
-/
theorem c2_flush_race (c : TelemetryClient) (st : Bool) (cbt : Option Nat) (t : Nat) :
    (flush c st cbt).rejected = false ∧
    (flush c st cbt).resolveMs ≤ 2000 ∧
    ((c.enabled && c.hasClient) = false → flush c st cbt = ⟨0, [], false⟩) ∧
    ((c.enabled && c.hasClient) = true → st = false → cbt = some t →
      (flush c st cbt).resolveMs = min t 2000) ∧
    ((c.enabled && c.hasClient) = true → st = false → cbt = none →
      (flush c st cbt).resolveMs = 2000) ∧
    ((c.enabled && c.hasClient) = true → st = true →
      flush c st cbt = ⟨0, [SinkCall.flushReq], false⟩) := by
  obtain ⟨en, hasc, ctx⟩ := c
  cases en <;> cases hasc <;> cases st <;> cases cbt <;>
    simp_all [flush, Nat.min_le_right]

/-- Witness for C2 on a concretely constructed Enabled client. -/
theorem c2_flush_race_witness :
    (((mkTelemetryClient ⟨("p"), ("1.0.0"), some ("InstrumentationKey=abc")⟩ (fun _ => none)
        ⟨("linux"), ("6.1"), ("v20.0.0"), false, []⟩ false).1.enabled &&
      (mkTelemetryClient ⟨("p"), ("1.0.0"), some ("InstrumentationKey=abc")⟩ (fun _ => none)
        ⟨("linux"), ("6.1"), ("v20.0.0"), false, []⟩ false).1.hasClient) = true) ∧
    (flush (mkTelemetryClient ⟨("p"), ("1.0.0"), some ("InstrumentationKey=abc")⟩ (fun _ => none)
      ⟨("linux"), ("6.1"), ("v20.0.0"), false, []⟩ false).1 false (some 500)).resolveMs =
      min 500 2000 ∧
    (flush (mkTelemetryClient ⟨("p"), ("1.0.0"), some ("InstrumentationKey=abc")⟩ (fun _ => none)
      ⟨("linux"), ("6.1"), ("v20.0.0"), false, []⟩ false).1 false none).resolveMs = 2000 ∧
    (flush (mkTelemetryClient ⟨("p"), ("1.0.0"), some ("InstrumentationKey=abc")⟩ (fun _ => none)
      ⟨("linux"), ("6.1"), ("v20.0.0"), false, []⟩ false).1 true (some 7)).rejected = false :=
  ⟨by decide,
    (c2_flush_race (mkTelemetryClient ⟨("p"), ("1.0.0"), some ("InstrumentationKey=abc")⟩
        (fun _ => none) ⟨("linux"), ("6.1"), ("v20.0.0"), false, []⟩ false).1
      false (some 500) 500).2.2.2.1 (by decide) rfl rfl,
    (c2_flush_race (mkTelemetryClient ⟨("p"), ("1.0.0"), some ("InstrumentationKey=abc")⟩
        (fun _ => none) ⟨("linux"), ("6.1"), ("v20.0.0"), false, []⟩ false).1
      false none 0).2.2.2.2.1 (by decide) rfl rfl,
    (c2_flush_race (mkTelemetryClient ⟨("p"), ("1.0.0"), some ("InstrumentationKey=abc")⟩
        (fun _ => none) ⟨("linux"), ("6.1"), ("v20.0.0"), false, []⟩ false).1
      true (some 7) 7).1⟩

/--
C6.  For a client constructed while not opted out, the credential resolves
config value → environment variable → compiled-in placeholder; when the
resolved credential contains neither marker substring, construction returns
normally with a Disabled client for its whole lifetime and no sink setup is
attempted.
-/
theorem c6_invalid_credential_disables (config : TelemetryConfig) (env : EnvMap)
    (sys : SystemInfo) (sit : Bool) (s v ts : String) (st : Bool) (cbt : Option Nat)
    (hdis : isTelemetryDisabled env = false)
    (h1 : containsSub (("InstrumentationKey=").data)
      (getConnectionString config.connectionString env).data = false)
    (h2 : containsSub (("IngestionEndpoint=").data)
      (getConnectionString config.connectionString env).data = false) :
    mkTelemetryClient config env sys sit = (⟨false, false, buildContext config sys⟩, []) ∧
    isEnabled (mkTelemetryClient config env sys sit).1 = false ∧
    (trackPluginStarted (mkTelemetryClient config env sys sit).1 ts st).client =
      (mkTelemetryClient config env sys sit).1 ∧
    isEnabled (trackPluginStarted (mkTelemetryClient config env sys sit).1 ts st).client = false ∧
    flush (mkTelemetryClient config env sys sit).1 st cbt = ⟨0, [], false⟩ ∧
    (¬ s = ("") → getConnectionString (some s) env = s) ∧
    (env ("HEFT_PLUGINS_APP_INSIGHTS_CONNECTION_STRING") = some v → ¬ v = ("") →
      getConnectionString none env = v) ∧
    (env ("HEFT_PLUGINS_APP_INSIGHTS_CONNECTION_STRING") = none →
      getConnectionString none env = DEFAULT_CONNECTION_STRING) := by
  have hval : isValidConnectionString (getConnectionString config.connectionString env) = false := by
    simp only [isValidConnectionString, h1, h2, Bool.or_self]
    split <;> rfl
  have hc : mkTelemetryClient config env sys sit = (⟨false, false, buildContext config sys⟩, []) := by
    simp [mkTelemetryClient, hdis, hval]
  refine ⟨hc, ?_, ?_, ?_, ?_, ?_, ?_, ?_⟩
  · rw [hc]
    rfl
  · rw [hc]
    rfl
  · rw [hc]
    rfl
  · rw [hc]
    rfl
  · intro hs
    simp [getConnectionString, orFalsy, hs]
  · intro hv hvne
    simp [getConnectionString, orFalsy, hv, hvne]
  · intro hv
    simp [getConnectionString, orFalsy, hv]

/-- Witness for C6 with a placeholder-shaped credential lacking both markers. -/
theorem c6_invalid_credential_disables_witness :
    isTelemetryDisabled (fun _ => none) = false ∧
    containsSub (("InstrumentationKey=").data)
      (getConnectionString (some ("not-a-credential")) (fun _ => none)).data = false ∧
    containsSub (("IngestionEndpoint=").data)
      (getConnectionString (some ("not-a-credential")) (fun _ => none)).data = false ∧
    mkTelemetryClient ⟨("p"), ("1.0.0"), some ("not-a-credential")⟩ (fun _ => none)
      ⟨("linux"), ("6.1"), ("v20.0.0"), false, []⟩ false =
      (⟨false, false, buildContext ⟨("p"), ("1.0.0"), some ("not-a-credential")⟩
        ⟨("linux"), ("6.1"), ("v20.0.0"), false, []⟩⟩, []) ∧
    isEnabled (mkTelemetryClient ⟨("p"), ("1.0.0"), some ("not-a-credential")⟩ (fun _ => none)
      ⟨("linux"), ("6.1"), ("v20.0.0"), false, []⟩ false).1 = false :=
  ⟨by decide, by decide, by decide,
    (c6_invalid_credential_disables ⟨("p"), ("1.0.0"), some ("not-a-credential")⟩ (fun _ => none)
      ⟨("linux"), ("6.1"), ("v20.0.0"), false, []⟩ false ("x") ("y") ("t") false none
      (by decide) (by decide) (by decide)).1,
    ((c6_invalid_credential_disables ⟨("p"), ("1.0.0"), some ("not-a-credential")⟩ (fun _ => none)
      ⟨("linux"), ("6.1"), ("v20.0.0"), false, []⟩ false ("x") ("y") ("t") false none
      (by decide) (by decide) (by decide)).2).1⟩

/--
C7.  On an Enabled client, `trackPluginError` emits one Error event whose
`errorType` is the error's constructor name for `Error` instances and
`"UnknownError"` otherwise, and whose `errorMessage` is the sanitizer
applied to the error's message (or its string coercion), and never throws.
-/
theorem c7_trackPluginError_event (c : TelemetryClient) (e : JsValue) (d : Int)
    (ts : String) (st : Bool)
    (hen : c.enabled = true) (hcl : c.hasClient = true) :
    (trackPluginError c e d ts st).sinkCalls =
      [SinkCall.event TelemetryEventType.error
        ((("timestamp"), ts) :: (("errorType"), getErrorType e) ::
          (("errorMessage"), sanitizeErrorMessage (jsErrorMessage e)) ::
          (("durationMs"), toString d) :: [])] ∧
    getErrorType e = (match e with
      | JsValue.errObj n _ => n
      | JsValue.nonError _ => ("UnknownError")) ∧
    jsErrorMessage e = (match e with
      | JsValue.errObj _ m => m
      | JsValue.nonError s0 => s0) ∧
    (trackPluginError c e d ts st).threw = false ∧
    (trackPluginError c e d ts st).client = c := by
  refine ⟨?_, ?_, ?_, ?_, ?_⟩
  · simp [trackPluginError, hen, hcl]
  · cases e <;> rfl
  · cases e <;> rfl
  · simp [trackPluginError, hen, hcl]
  · simp [trackPluginError, hen, hcl]

/-- Witness for C7 on a concrete Enabled client, one `Error` value and one non-error value. -/
theorem c7_trackPluginError_event_witness :
    (mkTelemetryClient ⟨("p"), ("1.0.0"), some ("InstrumentationKey=abc")⟩ (fun _ => none)
      ⟨("linux"), ("6.1"), ("v20.0.0"), false, []⟩ false).1.enabled = true ∧
    (mkTelemetryClient ⟨("p"), ("1.0.0"), some ("InstrumentationKey=abc")⟩ (fun _ => none)
      ⟨("linux"), ("6.1"), ("v20.0.0"), false, []⟩ false).1.hasClient = true ∧
    (trackPluginError (mkTelemetryClient ⟨("p"), ("1.0.0"), some ("InstrumentationKey=abc")⟩
        (fun _ => none) ⟨("linux"), ("6.1"), ("v20.0.0"), false, []⟩ false).1
      (JsValue.errObj ("TypeError") ("bad input")) 12 ("t") false).sinkCalls =
      [SinkCall.event TelemetryEventType.error
        ((("timestamp"), ("t")) ::
          (("errorType"), getErrorType (JsValue.errObj ("TypeError") ("bad input"))) ::
          (("errorMessage"), sanitizeErrorMessage
            (jsErrorMessage (JsValue.errObj ("TypeError") ("bad input")))) ::
          (("durationMs"), toString (12 : Int)) :: [])] ∧
    getErrorType (JsValue.errObj ("TypeError") ("bad input")) = ("TypeError") ∧
    getErrorType (JsValue.nonError ("oops")) = ("UnknownError") :=
  ⟨by decide, by decide,
    (c7_trackPluginError_event (mkTelemetryClient
        ⟨("p"), ("1.0.0"), some ("InstrumentationKey=abc")⟩ (fun _ => none)
        ⟨("linux"), ("6.1"), ("v20.0.0"), false, []⟩ false).1
      (JsValue.errObj ("TypeError") ("bad input")) 12 ("t") false
      (by decide) (by decide)).1,
    by decide, by decide⟩

/--
C10.  Every context built by the constructor populates exactly the seven
fields `osType`, `osVersion`, `nodeVersion`, `isCI`, `sessionId`,
`pluginName`, `pluginVersion`; the declared `telemetryClientVersion` field
is never set, and no construction or client operation performs a
`getTelemetryClientVersion` read.
-/
theorem c10_context_fields_and_no_version_read (config : TelemetryConfig) (env : EnvMap)
    (sys : SystemInfo) (sit : Bool) (ts cat msg : String) (d wc : Int) (oc : PluginOutcome)
    (e : JsValue) (st : Bool) (cbt : Option Nat) :
    (mkTelemetryClient config env sys sit).1.context =
      ⟨sys.osType, sys.osVersion, stripLeadingV sys.nodeVersionRaw, sys.isCI,
        generateSessionId sys.randomBytes, config.pluginName, config.pluginVersion, none⟩ ∧
    getContext (mkTelemetryClient config env sys sit).1 =
      (mkTelemetryClient config env sys sit).1.context ∧
    SinkCall.versionRead ∉ (mkTelemetryClient config env sys sit).2 ∧
    SinkCall.versionRead ∉
      (trackPluginInstalled (mkTelemetryClient config env sys sit).1 ts st).sinkCalls ∧
    SinkCall.versionRead ∉
      (trackPluginStarted (mkTelemetryClient config env sys sit).1 ts st).sinkCalls ∧
    SinkCall.versionRead ∉
      (trackPluginCompleted (mkTelemetryClient config env sys sit).1 d oc wc ts st).sinkCalls ∧
    SinkCall.versionRead ∉
      (trackPluginError (mkTelemetryClient config env sys sit).1 e d ts st).sinkCalls ∧
    SinkCall.versionRead ∉
      (trackPluginWarning (mkTelemetryClient config env sys sit).1 cat msg ts st).sinkCalls ∧
    SinkCall.versionRead ∉ (flush (mkTelemetryClient config env sys sit).1 st cbt).sinkCalls := by
  refine ⟨?_, rfl, ?_, ?_, ?_, ?_, ?_, ?_, ?_⟩
  · simp only [mkTelemetryClient, buildContext]
    split
    · rfl
    · split
      · rfl
      · split
        · rfl
        · rfl
  · simp only [mkTelemetryClient]
    split
    · simp
    · split
      · simp
      · split
        · simp
        · simp
  · simp only [trackPluginInstalled]
    split
    · simp
    · simp
  · simp only [trackPluginStarted]
    split
    · simp
    · simp
  · simp only [trackPluginCompleted]
    split
    · simp
    · split
      · simp
      · simp
  · simp only [trackPluginError]
    split
    · simp
    · simp
  · simp only [trackPluginWarning]
    split
    · simp
    · simp
  · simp only [flush]
    split
    · simp
    · split
      · simp
      · split
        · simp
        · simp

/--
C3 counterexample.  The claim fails as stated: the input
`"see http://user@example.com"` contains the well-formed email address
`user@example.com` (a full match of the source email pattern), yet the
sanitized output contains no `[EMAIL]` token, because the URL pattern runs
first and absorbs the email.
-/
theorem c3_email_inside_url_counterexample :
    emailP (("user@example.com").data) = some 16 ∧
    containsSub (("user@example.com").data) (("see http://user@example.com").data) = true ∧
    containsSub (("[EMAIL]").data)
      ((sanitizeErrorMessage ("see http://user@example.com")).data) = false ∧
    sanitizeErrorMessage ("see http://user@example.com") = ("see [URL]") := by
  decide

/--
C3 as amended.  For every input in which a sensitive substring `w` — one
the substitution pipeline rewrites to exactly its redaction token — occurs
delimited by spaces, and whose post-substitution result is within the
512-character truncation limit, the sanitized output contains the matching
redaction token, and the delimited occurrence of `w` itself is replaced by
that token.
-/
theorem c3_delimited_sensitive_substring_redacted (a w b tok : List Char)
    (hw : applySanitizePatterns w = tok)
    (hlen : (applySanitizePatterns (a ++ ' ' :: (w ++ ' ' :: b))).length ≤ 512) :
    sanitizeErrorMessageL (a ++ ' ' :: (w ++ ' ' :: b)) =
      applySanitizePatterns a ++ ' ' :: (tok ++ ' ' :: applySanitizePatterns b) ∧
    containsSub tok (sanitizeErrorMessageL (a ++ ' ' :: (w ++ ' ' :: b))) = true := by
  have hsplit : applySanitizePatterns (a ++ ' ' :: (w ++ ' ' :: b)) =
      applySanitizePatterns a ++ ' ' :: (tok ++ ' ' :: applySanitizePatterns b) := by
    rw [applySanitizePatterns_space a (w ++ ' ' :: b)]
    rw [applySanitizePatterns_space w b]
    rw [hw]
  have hid : sanitizeErrorMessageL (a ++ ' ' :: (w ++ ' ' :: b)) =
      applySanitizePatterns (a ++ ' ' :: (w ++ ' ' :: b)) := by
    simp only [sanitizeErrorMessageL, truncateStringL]
    rw [if_pos hlen]
  refine ⟨by rw [hid, hsplit], ?_⟩
  rw [hid, hsplit]
  have hre : applySanitizePatterns a ++ ' ' :: (tok ++ ' ' :: applySanitizePatterns b) =
      (applySanitizePatterns a ++ (' ' :: [])) ++ (tok ++ (' ' :: applySanitizePatterns b)) := by
    simp
  rw [hre]
  exact containsSub_append_mid tok (' ' :: applySanitizePatterns b) (applySanitizePatterns a ++ (' ' :: []))

/-- Witness for the amended C3 with a space-delimited email in a short message. -/
theorem c3_delimited_sensitive_substring_redacted_witness :
    applySanitizePatterns (("user@example.com").data) = (("[EMAIL]").data) ∧
    (applySanitizePatterns ((("log").data) ++ ' ' :: ((("user@example.com").data) ++ ' ' ::
      (("done").data)))).length ≤ 512 ∧
    containsSub (("[EMAIL]").data)
      (sanitizeErrorMessageL ((("log").data) ++ ' ' :: ((("user@example.com").data) ++ ' ' ::
        (("done").data)))) = true :=
  ⟨by decide, by decide,
    (c3_delimited_sensitive_substring_redacted (("log").data) (("user@example.com").data)
      (("done").data) (("[EMAIL]").data) (by decide) (by decide)).2⟩

end HeftTelemetry
